import Mathlib

/-!
Verification of the multi-party twitch combat scheduler of the SUMUD
repository (src/world/combat/multi_party_combat_twitch.py, combat_base.py,
and the character hooks in src/world/character/characters.py).

The Python code is shallowly embedded: dictionaries become association
lists over a small value type, the shared action queue becomes a list of
entries sorted by fire time (Python's stable `list.sort` is modelled by
`List.insertionSort`, which is likewise a stable sort), and the handler's
mutable state becomes explicit state passing.  Time (`time.time()`) is an
explicit natural-number parameter.
-/

/-- Combatant: the slice of a character/NPC object consumed by the combat
core.  `is_pc` models both `inherits_from(comb, SUCharacter)` (used by
`get_sides`) and the `is_pc` attribute (used by the loot step): in the
source, `SUCharacter` sets `is_pc = True` and all other living entities
inherit `is_pc = False` from `LivingMixin`.  `id` is the unique object id;
`location` is the id of the room the entity currently occupies. -/
structure Combatant where
  id : Nat
  is_pc : Bool
  hp : Int
  location : Nat
deriving DecidableEq, Repr

/-- Values stored in a Python action dict: strings, numbers, booleans and
references to game entities (targets, items, recipients, abilities). -/
inductive PyVal where
  | pStr (s : String)
  | pNat (n : Nat)
  | pBool (b : Bool)
  | pObj (id : Nat)
deriving DecidableEq, Repr

/-- A Python dict with string keys, as an association list (keys unique in
all dicts built by the source; lookup takes the first match). -/
abbrev ActionDict := List (String × PyVal)

/-- Model of `d.get(k)` / `d.get(k, None)`. -/
def dget (d : ActionDict) (k : String) : Option PyVal :=
  (d.find? (fun kv => kv.1 = k)).map (fun kv => kv.2)

/-- Model of `d.get(k, default)`. -/
def dgetD (d : ActionDict) (k : String) (v : PyVal) : PyVal :=
  (dget d k).getD v

/-- Python truthiness of a value ('' and 0 are falsy; object references
appearing in action dicts are always truthy). -/
def truthy : PyVal → Bool
  | .pStr s => decide (s ≠ "")
  | .pNat n => decide (n ≠ 0)
  | .pBool b => b
  | .pObj _ => true

/-- Truthiness of `d.get(k, None)`: `None` is falsy. -/
def truthyO : Option PyVal → Bool
  | none => false
  | some v => truthy v

/-- Model of `key.startswith("_")`: the first character is an underscore
(the prefix checked in the source is the single character `"_"`). -/
def underscored (s : String) : Bool :=
  match s.data with
  | [] => false
  | c :: _ => c = '_'

/-- Keys of `SUCombatTwitchHandler.action_classes`. -/
def action_classes_keys : List String :=
  ["hold", "attack", "stunt", "use", "wield"]

/-- Model of `self.action_classes.get(action_key)` being non-`None`:
the looked-up value must be a string key of the class table. -/
def isActionClassKey : Option PyVal → Bool
  | some (.pStr k) => decide (k ∈ action_classes_keys)
  | _ => false

/-- Model of `dt = action_dict.get("dt", 1)` (all delays appearing in the
source are non-negative integer literals). -/
def dtOf (d : ActionDict) : Nat :=
  match dget d "dt" with
  | some (.pNat n) => n
  | _ => 1

/-- One pending action of the shared queue: the dict appended by
`queue_action` (`combatant`, `action_dict`, `time_to_act`). -/
structure Entry where
  combatant : Combatant
  action_dict : ActionDict
  time_to_act : Nat
deriving DecidableEq, Repr

/-- Comparison used by `self.db.action_queue.sort(key=lambda x:
x["time_to_act"])`. -/
def entryLE (a b : Entry) : Prop :=
  a.time_to_act ≤ b.time_to_act

instance : DecidableRel entryLE :=
  fun a b => inferInstanceAs (Decidable (a.time_to_act ≤ b.time_to_act))

/-- Model of Python's stable `list.sort` on the queue: `List.insertionSort`
is a stable sort (elements comparing equal keep their input order), as is
the Timsort used by CPython. -/
def sortQueue (q : List Entry) : List Entry :=
  q.insertionSort entryLE

/-- Mutable state of `SUCombatTwitchHandler` touched by the queue
operations: `self.db.combatants` and `self.db.action_queue`. -/
structure HandlerState where
  combatants : List Combatant
  action_queue : List Entry
deriving DecidableEq, Repr

/-- Model of `SUCombatTwitchHandler.queue_action(action_dict, combatant)`
at wall-clock time `now`.  The source validates the combatant against the
roster, then the presence and validity of the `"key"` entry (each failure
is an early `return` after a print/message — no exception), computes
`time_to_act = time.time() + dt`, appends the entry and re-sorts the queue
by fire time. -/
def queue_action (st : HandlerState) (now : Nat) (action_dict : ActionDict)
    (combatant : Combatant) : HandlerState :=
  if ¬ (combatant ∈ st.combatants) then st
  else if ¬ truthyO (dget action_dict "key") then st
  else if ¬ isActionClassKey (dget action_dict "key") then st
  else
    { st with
      action_queue :=
        sortQueue
          (st.action_queue ++ [⟨combatant, action_dict, now + dtOf action_dict⟩]) }

/-- Drain loop of `process_queue`: pop the head while its `time_to_act` has
passed.  Returns the popped entries, in pop order, together with the
remaining queue.  The per-entry call to `execute_next_action` (which may
append re-queued actions that fire strictly later than `now`, and the
terminating `check_stop_combat`) is modelled separately. -/
def pop_due (now : Nat) : List Entry → List Entry × List Entry
  | [] => ([], [])
  | e :: rest =>
    if e.time_to_act ≤ now then
      let p := pop_due now rest
      (e :: p.1, p.2)
    else ([], e :: rest)

/-- Class attribute `fallback_action_dict` of `SUCombatTwitchHandler`. -/
def fallback_action_dict : ActionDict :=
  [("key", .pStr "attack"), ("dt", .pNat 1), ("repeat", .pBool false)]

/-- Observable outcome of `execute_next_action` for one action. -/
structure ExecResult where
  st : HandlerState
  ran : Bool
  cannot_msg : Bool
  unknown_msg : Bool
deriving DecidableEq, Repr

/-- Model of `SUCombatTwitchHandler.execute_next_action(action_dict,
combatant)` at time `now`.  `can_use` is the value returned by the
constructed action's `can_use()` (the shipped `CombatAction` classes all
return `True`; the parameter covers the skip branch of the handler).  The
action's `execute()`/`post_execute()` side effects on characters, the
`update_stats` call and the trailing `check_stop_combat()` call are
modelled separately; `ran` records whether `execute()` was reached,
`cannot_msg` whether the "cannot be used right now" message was sent, and
`unknown_msg` whether the unknown-action branch printed.  The re-queue
block runs unconditionally after the execute/skip branches: if
`action_dict.get("repeat", True)` is truthy the same dict is queued again,
otherwise if `action_dict.get("repeat", False)` is truthy the class
fallback dict is queued (`self.action_dict` is a scratch attribute holding
whichever dict gets queued). -/
def execute_next_action (st : HandlerState) (now : Nat) (can_use : Bool)
    (action_dict : ActionDict) (combatant : Combatant) : ExecResult :=
  let known := isActionClassKey (dget action_dict "key")
  let st1 :=
    if truthy (dgetD action_dict "repeat" (.pBool true)) then
      queue_action st now action_dict combatant
    else if truthy (dgetD action_dict "repeat" (.pBool false)) then
      queue_action st now fallback_action_dict combatant
    else st
  { st := st1
    ran := known && can_use
    cannot_msg := known && !can_use
    unknown_msg := !known }

/-- Model of `SUCombatTwitchHandler.get_sides(combatant)`.  `pvp` is
`hasattr(location, "allow_pvp") and location.allow_pvp` for the handler's
location; `combatants` is `self.db.combatants`.  In the PvP branch the
source returns `allies = [combatant]` and everyone else as enemies; in the
other branch it splits the roster into PCs (`inherits_from(comb,
SUCharacter)`) and the rest, and returns the pair oriented by the caller's
own category. -/
def get_sides (pvp : Bool) (combatants : List Combatant)
    (combatant : Combatant) : List Combatant × List Combatant :=
  if pvp then
    ([combatant], combatants.filter (fun comb => comb ≠ combatant))
  else
    let pcs := combatants.filter (fun comb => comb.is_pc)
    let npcs := combatants.filter (fun comb => ¬ (comb ∈ pcs))
    if combatant ∈ pcs then (pcs, npcs) else (npcs, pcs)

/-- The per-target advantage / disadvantage dict of the handler
(`advantage_against` / `disadvantage_against`), keyed by combatant. -/
abbrev AdvMap := List (Combatant × Bool)

/-- Model of a Python dict store `m[k] = v`: overwrite an existing key,
otherwise add the binding. -/
def dictStore (m : AdvMap) (k : Combatant) (v : Bool) : AdvMap :=
  if m.any (fun kv => kv.1 = k) then
    m.map (fun kv => if kv.1 = k then (k, v) else kv)
  else m ++ [(k, v)]

/-- Model of a Python dict lookup `m.get(k, False)`. -/
def dictGetD (m : AdvMap) (k : Combatant) : Bool :=
  ((m.find? (fun kv => kv.1 = k)).map (fun kv => kv.2)).getD false

/-- Model of `give_advantage(recipient, target)`: the source executes
`self.advantage_against[target] = True` — the `recipient` parameter is
unused. -/
def give_advantage (m : AdvMap) (recipient target : Combatant) : AdvMap :=
  dictStore m target true

/-- Model of `has_advantage(combatant, target)`: the source returns
`self.advantage_against.get(target, False)` — the `combatant` parameter is
unused. -/
def has_advantage (m : AdvMap) (combatant target : Combatant) : Bool :=
  dictGetD m target

/-- Hook invocations performed by one `check_stop_combat()` call:
`atDefeatCalls` lists the argument of each `SUMob.at_defeat(loser)` call
in order, `lootCalls` lists each `(victor, loser)` pair for which
`LivingMixin.at_do_loot(victor, loser)` runs, and `stopped` records
whether `stop_combat()` was reached. -/
structure StopTrace where
  atDefeatCalls : List Combatant
  lootCalls : List (Combatant × Combatant)
  stopped : Bool
deriving DecidableEq, Repr

/-- Filter used by `check_stop_combat`: alive and still in the handler's
location. -/
def isActive (loc : Nat) (comb : Combatant) : Bool :=
  decide (0 < comb.hp) && decide (comb.location = loc)

/-- The `active_allies` list computed by `check_stop_combat`. -/
def active_allies (pvp : Bool) (combatants : List Combatant)
    (anchor : Combatant) (loc : Nat) : List Combatant :=
  ((get_sides pvp combatants anchor).1).filter (isActive loc)

/-- The `active_enemies` list computed by `check_stop_combat`. -/
def active_enemies (pvp : Bool) (combatants : List Combatant)
    (anchor : Combatant) (loc : Nat) : List Combatant :=
  ((get_sides pvp combatants anchor).2).filter (isActive loc)

/-- The `defeated` list computed by `check_stop_combat`
(`defeated_allies + defeated_enemies`). -/
def defeated_of (pvp : Bool) (combatants : List Combatant)
    (anchor : Combatant) (loc : Nat) : List Combatant :=
  ((get_sides pvp combatants anchor).1).filter
      (fun comb => ¬ (comb ∈ active_allies pvp combatants anchor loc)) ++
    ((get_sides pvp combatants anchor).2).filter
      (fun comb => ¬ (comb ∈ active_enemies pvp combatants anchor loc))

/-- The `victors` list computed by `check_stop_combat`
(`active_allies + active_enemies`). -/
def victors_of (pvp : Bool) (combatants : List Combatant)
    (anchor : Combatant) (loc : Nat) : List Combatant :=
  active_allies pvp combatants anchor loc ++ active_enemies pvp combatants anchor loc

/-- Model of `SUCombatTwitchHandler.check_stop_combat()`.  `anchor` is
`self.obj` (the combatant the handler script is stored on) and `loc` the
id of `self.obj.location`.  The source recomputes the two sides for the
anchor, keeps only combatants with `hp > 0` in the same room, collects the
rest as defeated, and then: if no one is active it stops; if exactly one
side is active, every victor iterates over every defeated combatant
calling `SUMob.at_defeat(loser)`, and every PC victor additionally loots
every defeated combatant for which `LivingMixin.pre_loot` returns `True`
(it always returns `True` in the source); then it stops.  Otherwise combat
continues with no hook calls. -/
def check_stop_combat (pvp : Bool) (combatants : List Combatant)
    (anchor : Combatant) (loc : Nat) : StopTrace :=
  let active_allies := active_allies pvp combatants anchor loc
  let active_enemies := active_enemies pvp combatants anchor loc
  let defeated := defeated_of pvp combatants anchor loc
  if active_allies = [] ∧ active_enemies = [] then
    ⟨[], [], true⟩
  else if active_allies = [] ∨ active_enemies = [] then
    let victors := victors_of pvp combatants anchor loc
    ⟨victors.flatMap (fun _ => defeated),
     victors.flatMap (fun victor =>
       if victor.is_pc then defeated.map (fun loser => (victor, loser)) else []),
     true⟩
  else
    ⟨[], [], false⟩

/-- Instance attributes set by `CombatAction.__init__(combathandler,
combatant, action_dict)`: `self.combathandler` and `self.combatant` are
always set, and of the dict entries only those whose key starts with an
underscore are copied onto the action object. -/
def initAttrs (handlerId : Nat) (combatant : Combatant)
    (action_dict : ActionDict) : List (String × PyVal) :=
  ("combathandler", .pObj handlerId) :: ("combatant", .pObj combatant.id) ::
    action_dict.filter (fun kv => underscored kv.1)

/-- Model of reading `self.<name>`: an `AttributeError` escapes if the
attribute was never set. -/
def getattrE (attrs : List (String × PyVal)) (name : String) :
    Except String PyVal :=
  match (attrs.find? (fun kv => kv.1 = name)).map (fun kv => kv.2) with
  | some v => .ok v
  | none => .error ("AttributeError: " ++ name)

/-- Attribute reads performed by `CombatActionAttack.execute` in source
order (`self.combatant`, then `self.target`); the subsequent external
weapon calls are elided, so a run that reaches them is `.ok`. -/
def attack_execute (attrs : List (String × PyVal)) : Except String PyVal := do
  let _ ← getattrE attrs "combatant"
  let target ← getattrE attrs "target"
  pure target

/-- Attribute reads performed by `CombatActionStunt.execute` in source
order (`self.combatant`, `self.recipient`, `self.target`, then
`self.advantage`, `self.stunt_type`, `self.defense_type`); the dice roll
and message calls are elided. -/
def stunt_execute (attrs : List (String × PyVal)) : Except String PyVal := do
  let _ ← getattrE attrs "combatant"
  let recipient ← getattrE attrs "recipient"
  let _ ← getattrE attrs "target"
  let _ ← getattrE attrs "advantage"
  let _ ← getattrE attrs "stunt_type"
  let _ ← getattrE attrs "defense_type"
  pure recipient

/-- Attribute reads performed by `CombatActionUseItem.execute` in source
order (`self.item`, `self.combatant`, `self.target`); the external item
calls are elided. -/
def use_item_execute (attrs : List (String × PyVal)) : Except String PyVal := do
  let item ← getattrE attrs "item"
  let _ ← getattrE attrs "combatant"
  let _ ← getattrE attrs "target"
  pure item

/-- Attribute reads performed by `CombatActionWield.execute`
(`self.combatant`, then `self.item`); the equipment move is elided. -/
def wield_execute (attrs : List (String × PyVal)) : Except String PyVal := do
  let _ ← getattrE attrs "combatant"
  let item ← getattrE attrs "item"
  pure item

/-- Arena state touched by `stop_combat`: the roster and queue, the ids of
combatants whose `ndb.combathandler` back-reference points at this
handler, and whether the handler script is still registered on its host
object (`self.delete()` deregisters it, so a later
`get_or_create_combathandler` builds a fresh handler). -/
structure ArenaState where
  combatants : List Combatant
  action_queue : List Entry
  backref : List Nat
  registered : Bool
deriving DecidableEq, Repr

/-- The per-combatant loop body of `stop_combat`: `del
combatant.ndb.combathandler` raises `AttributeError` if the reference is
already gone. -/
def delBackrefs : List Combatant → List Nat → Except String (List Nat)
  | [], br => .ok br
  | comb :: rest, br =>
    if comb.id ∈ br then delBackrefs rest (br.erase comb.id)
    else .error "AttributeError: combathandler"

/-- Model of `SUCombatTwitchHandler.stop_combat()`: message every
combatant, delete each roster member's back-reference, clear the roster
and the action queue, remove the look cmdset and `self.delete()` the
script (cmdset removal and script deletion are tolerant framework calls
that do not raise when repeated). -/
def stop_combat (st : ArenaState) : Except String ArenaState :=
  (delBackrefs st.combatants st.backref).map (fun br =>
    { combatants := []
      action_queue := []
      backref := br
      registered := false })

/-! Concrete combatants used in evaluations and witnesses. -/

/-- A player character, alive, in room 0. -/
def cA : Combatant := ⟨1, true, 10, 0⟩

/-- A second player character, alive, in room 0. -/
def cB : Combatant := ⟨2, true, 10, 0⟩

/-- An NPC, alive, in room 0. -/
def cN : Combatant := ⟨3, false, 8, 0⟩

/-- An NPC at 0 hp, in room 0. -/
def cNdead : Combatant := ⟨4, false, 0, 0⟩

/-- The action dict queued by `CmdAttack` / `LivingMixin.at_attacked`,
targeting the NPC `cN`. -/
def attack_repeat_false : ActionDict :=
  [("key", .pStr "attack"), ("target", .pObj 3), ("dt", .pNat 1),
   ("repeat", .pBool false)]

/-- The same attack dict with `repeat=True`. -/
def attack_repeat_true : ActionDict :=
  [("key", .pStr "attack"), ("target", .pObj 3), ("dt", .pNat 1),
   ("repeat", .pBool true)]

/-- A handler whose roster holds `cA` and `cN`, with an empty queue. -/
def stateAN : HandlerState := ⟨[cA, cN], []⟩

/-- C7: starting from an empty advantage map, `give_advantage R T` makes
`has_advantage R T` true while `has_advantage T R` stays false (for
`R ≠ T`); moreover the store ignores its recipient argument and the query
ignores its first argument, since the flag is keyed only by the target. -/
theorem advantage_is_target_keyed (R T : Combatant) (h : R ≠ T) :
    has_advantage (give_advantage [] R T) R T = true ∧
    has_advantage (give_advantage [] R T) T R = false ∧
    (∀ (m : AdvMap) (R' : Combatant), give_advantage m R T = give_advantage m R' T) ∧
    (∀ (m : AdvMap) (a b : Combatant), has_advantage m a T = has_advantage m b T) := by
  refine ⟨?_, ?_, fun m R' => rfl, fun m a b => rfl⟩
  · simp [has_advantage, give_advantage, dictStore, dictGetD]
  · simp [has_advantage, give_advantage, dictStore, dictGetD, Ne.symm h]

/-- Witness for `advantage_is_target_keyed` at `R = cA`, `T = cN`. -/
theorem advantage_is_target_keyed_witness :
    has_advantage (give_advantage [] cA cN) cA cN = true ∧
    has_advantage (give_advantage [] cA cN) cN cA = false :=
  ⟨(advantage_is_target_keyed cA cN (by decide)).1,
   (advantage_is_target_keyed cA cN (by decide)).2.1⟩

/-- C6: evaluating `get_sides`, the querying combatant appears in its own
allies list — in the PvP branch (`allies = [combatant]`) and in both
orientations of the PC-vs-NPC branch — contradicting the claim (and the
function's own docstring) that the combatant is in neither returned
list. -/
theorem get_sides_includes_self :
    (get_sides true [cA, cB] cA).1 = [cA] ∧ cA ∈ (get_sides true [cA, cB] cA).1 ∧
    (get_sides false [cA, cN] cA).1 = [cA] ∧ cA ∈ (get_sides false [cA, cN] cA).1 ∧
    (get_sides false [cA, cN] cN).1 = [cN] ∧ cN ∈ (get_sides false [cA, cN] cN).1 := by
  decide

/-- C1: executing a queued action with `repeat=False` re-queues nothing:
the guard `action_dict.get("repeat", False)` of the fallback branch is
false whenever the first guard `action_dict.get("repeat", True)` was, so
after the tick the combatant's queue is empty rather than holding the
arena's fallback action.  An action with `repeat=True` does re-queue the
same dict at `now + dt`, as claimed. -/
theorem repeat_false_requeues_nothing :
    (execute_next_action stateAN 10 true attack_repeat_false cA).st.action_queue = [] ∧
    (execute_next_action stateAN 10 true attack_repeat_false cA).ran = true ∧
    (execute_next_action stateAN 10 true attack_repeat_true cA).st.action_queue =
      [⟨cA, attack_repeat_true, 11⟩] := by
  decide

/-- Counting occurrences in the defeat-hook call list: each victor
contributes one full copy of the defeated list. -/
theorem count_flatMap_const {α β : Type} [DecidableEq β] (vs : List α)
    (ds : List β) (l : β) :
    (vs.flatMap (fun _ => ds)).count l = vs.length * ds.count l := by
  induction vs with
  | nil => simp
  | cons v vs ih => simp [ih, Nat.succ_mul, Nat.add_comm]

/-- Counting a pair in the list of loot pairs built for one victor. -/
theorem count_map_pair (w v l : Combatant) (ds : List Combatant) :
    (ds.map (fun loser => (w, loser))).count (v, l) =
      if w = v then ds.count l else 0 := by
  induction ds with
  | nil => simp
  | cons d ds ih =>
    simp only [List.map_cons, List.count_cons, ih, Prod.mk.injEq]
    by_cases hw : w = v
    · subst hw
      by_cases hd : d = l <;> simp [hd]
    · simp [hw]

/-- Counting a pair in the full loot-call list of `check_stop_combat`: a
PC victor `v` loots `l` once for each of its occurrences in the victors
list times each occurrence of `l` among the defeated. -/
theorem count_loot_flatMap (vs ds : List Combatant) (v l : Combatant) :
    (vs.flatMap (fun victor =>
        if victor.is_pc then ds.map (fun loser => (victor, loser)) else [])).count (v, l) =
      if v.is_pc then vs.count v * ds.count l else 0 := by
  induction vs with
  | nil => simp
  | cons w vs ih =>
    simp only [List.flatMap_cons, List.count_append, ih, List.count_cons]
    by_cases hw : w = v
    · subst hw
      by_cases hp : w.is_pc <;> simp [hp, count_map_pair, Nat.succ_mul, Nat.add_comm]
    · by_cases hp : w.is_pc
      · simp [hp, count_map_pair, hw]
      · simp [hp, hw]

/-- C2 counterexample: roster `[cA, cB, cNdead]` (two healthy PCs, one NPC
at 0 hp).  `check_stop_combat` finds exactly one active side but calls the
defeat hook twice for the single defeated NPC — once per victor — and both
PC victors loot it, so the defeated entity is looted twice by the
termination step. -/
theorem defeat_hook_runs_per_victor_eval :
    (check_stop_combat false [cA, cB, cNdead] cA 0).atDefeatCalls.count cNdead = 2 ∧
    (check_stop_combat false [cA, cB, cNdead] cA 0).lootCalls.count (cA, cNdead) = 1 ∧
    (check_stop_combat false [cA, cB, cNdead] cA 0).lootCalls.count (cB, cNdead) = 1 ∧
    (check_stop_combat false [cA, cB, cNdead] cA 0).lootCalls.countP
      (fun p => p.2 = cNdead) = 2 := by
  decide

/-- C2 amended: when `check_stop_combat` finds at least one active member
overall but at most one active side, the defeat hook is invoked once per
(victor, defeated-combatant) pair — `victors.length` times per defeated
combatant, so exactly once only when a single victor stands — and each PC
victor loots each defeated combatant once, so a defeated entity is looted
once per PC victor. -/
theorem check_stop_defeat_hook_per_victor (pvp : Bool) (combs : List Combatant)
    (anchor : Combatant) (loc : Nat) (v l : Combatant)
    (hno : ¬ (active_allies pvp combs anchor loc = [] ∧
              active_enemies pvp combs anchor loc = []))
    (hone : active_allies pvp combs anchor loc = [] ∨
            active_enemies pvp combs anchor loc = []) :
    (check_stop_combat pvp combs anchor loc).atDefeatCalls.count l =
      (victors_of pvp combs anchor loc).length *
        (defeated_of pvp combs anchor loc).count l ∧
    (check_stop_combat pvp combs anchor loc).lootCalls.count (v, l) =
      (if v.is_pc then
        (victors_of pvp combs anchor loc).count v *
          (defeated_of pvp combs anchor loc).count l
       else 0) ∧
    (check_stop_combat pvp combs anchor loc).stopped = true := by
  unfold check_stop_combat
  simp only [if_neg hno, if_pos hone]
  exact ⟨count_flatMap_const _ _ _, count_loot_flatMap _ _ _ _, trivial⟩

/-- Witness for `check_stop_defeat_hook_per_victor` on the two-PC-victor
scenario: two victors, so two defeat-hook calls for the one defeated
NPC. -/
theorem check_stop_defeat_hook_per_victor_witness :
    (check_stop_combat false [cA, cB, cNdead] cA 0).atDefeatCalls.count cNdead =
      (victors_of false [cA, cB, cNdead] cA 0).length *
        (defeated_of false [cA, cB, cNdead] cA 0).count cNdead ∧
    (check_stop_combat false [cA, cB, cNdead] cA 0).lootCalls.count (cB, cNdead) =
      (if cB.is_pc then
        (victors_of false [cA, cB, cNdead] cA 0).count cB *
          (defeated_of false [cA, cB, cNdead] cA 0).count cNdead
       else 0) ∧
    (check_stop_combat false [cA, cB, cNdead] cA 0).stopped = true := by
  refine ⟨?_, ?_, ?_⟩
  · exact (check_stop_defeat_hook_per_victor false [cA, cB, cNdead] cA 0 cB cNdead
      (by decide) (by decide)).1
  · exact (check_stop_defeat_hook_per_victor false [cA, cB, cNdead] cA 0 cB cNdead
      (by decide) (by decide)).2.1
  · exact (check_stop_defeat_hook_per_victor false [cA, cB, cNdead] cA 0 cB cNdead
      (by decide) (by decide)).2.2

/-- C5: `CombatAction.__init__` copies onto the action object only the
action-dict entries whose keys start with an underscore.  For any action
dict whose keys all lack the underscore prefix — as in every documented
dict (`key`, `target`, `item`, `recipient`, `advantage`, `stunt_type`,
`defense_type`, `dt`, `repeat`) — the constructed action carries only
`combathandler` and `combatant`, so `execute` of the Attack, Stunt,
UseItem and Wield variants hits an undefined attribute (`self.target`,
`self.recipient`, `self.item`) and raises `AttributeError`. -/
theorem combat_action_init_drops_keys (hid : Nat) (c : Combatant)
    (d : ActionDict) (h : ∀ kv ∈ d, underscored kv.1 = false) :
    initAttrs hid c d = [("combathandler", .pObj hid), ("combatant", .pObj c.id)] ∧
    attack_execute (initAttrs hid c d) = .error "AttributeError: target" ∧
    stunt_execute (initAttrs hid c d) = .error "AttributeError: recipient" ∧
    use_item_execute (initAttrs hid c d) = .error "AttributeError: item" ∧
    wield_execute (initAttrs hid c d) = .error "AttributeError: item" := by
  have hf : d.filter (fun kv => underscored kv.1) = [] :=
    List.filter_eq_nil_iff.mpr (fun kv hkv => by simp [h kv hkv])
  have hi : initAttrs hid c d =
      [("combathandler", .pObj hid), ("combatant", .pObj c.id)] := by
    simp [initAttrs, hf]
  refine ⟨hi, ?_, ?_, ?_, ?_⟩ <;> rw [hi] <;> rfl

/-- Witness for `combat_action_init_drops_keys` at the dict queued by
`CmdAttack` (keys `key`, `target`, `dt`, `repeat`). -/
theorem combat_action_init_drops_keys_witness :
    (∀ kv ∈ attack_repeat_false, underscored kv.1 = false) ∧
    attack_execute (initAttrs 0 cA attack_repeat_false) =
      .error "AttributeError: target" ∧
    stunt_execute (initAttrs 0 cA attack_repeat_false) =
      .error "AttributeError: recipient" :=
  ⟨by decide,
   (combat_action_init_drops_keys 0 cA attack_repeat_false (by decide)).2.1,
   (combat_action_init_drops_keys 0 cA attack_repeat_false (by decide)).2.2.1⟩

/-- Validation performed by `queue_action`: the combatant is in the
roster, the action dict holds a truthy `"key"`, and that key names one of
the known action classes. -/
def validSubmission (roster : List Combatant) (d : ActionDict)
    (c : Combatant) : Prop :=
  c ∈ roster ∧ truthyO (dget d "key") = true ∧
    isActionClassKey (dget d "key") = true

instance (roster : List Combatant) (d : ActionDict) (c : Combatant) :
    Decidable (validSubmission roster d c) := by
  unfold validSubmission; infer_instance

/-- Permuting away the final sort: the queue operation only re-orders. -/
theorem sortQueue_perm (q : List Entry) : (sortQueue q).Perm q :=
  List.perm_insertionSort entryLE q

/-- C9: `queue_action` never touches the roster; a submission failing any
of its checks (combatant not in roster, missing/falsy key, unknown key)
leaves the whole handler state unchanged — the failure paths are plain
early returns, no exception — while a submission passing the checks adds
exactly the one new pending entry with fire time `now + dt`. -/
theorem queue_action_validates (st : HandlerState) (now : Nat)
    (d : ActionDict) (c : Combatant) :
    (queue_action st now d c).combatants = st.combatants ∧
    (¬ validSubmission st.combatants d c → queue_action st now d c = st) ∧
    (validSubmission st.combatants d c →
      (queue_action st now d c).action_queue.Perm
        (⟨c, d, now + dtOf d⟩ :: st.action_queue)) := by
  refine ⟨?_, ?_, ?_⟩
  · unfold queue_action; split_ifs <;> rfl
  · intro hv
    unfold validSubmission at hv
    unfold queue_action
    split_ifs with h1 h2 h3
    any_goals rfl
    exact absurd ⟨h1, h2, h3⟩ hv
  · intro hv
    unfold queue_action
    rw [if_neg (not_not.mpr hv.1), if_neg (by simp [hv.2.1]),
      if_neg (by simp [hv.2.2])]
    exact (sortQueue_perm _).trans (List.perm_append_singleton _ _)

/-- Witness for `queue_action_validates`: a valid attack submission by a
roster member appends one entry; the same submission by a non-member,
and a gibberish-key submission, are rejected with the state unchanged. -/
theorem queue_action_validates_witness :
    (queue_action stateAN 5 attack_repeat_false cA).action_queue.Perm
      [⟨cA, attack_repeat_false, 6⟩] ∧
    queue_action ⟨[cN], []⟩ 5 attack_repeat_false cA = ⟨[cN], []⟩ ∧
    queue_action stateAN 5 [("key", .pStr "dance")] cA = stateAN :=
  ⟨(queue_action_validates stateAN 5 attack_repeat_false cA).2.2 (by decide),
   (queue_action_validates ⟨[cN], []⟩ 5 attack_repeat_false cA).2.1 (by decide),
   (queue_action_validates stateAN 5 [("key", .pStr "dance")] cA).2.1 (by decide)⟩

instance : IsTrans Entry entryLE :=
  ⟨fun _ _ _ hab hbc => Nat.le_trans hab hbc⟩

instance : IsTotal Entry entryLE :=
  ⟨fun a b => Nat.le_total a.time_to_act b.time_to_act⟩

/-- The queue stays sorted by fire time after every `queue_action`. -/
theorem sortQueue_sorted (q : List Entry) : (sortQueue q).Sorted entryLE :=
  List.sorted_insertionSort entryLE q

/-- Ordered insertion of a new entry after every entry with an
earlier-or-equal fire time: the effect, on an already sorted queue, of
appending one entry and re-sorting with a stable sort. -/
def queueInsert (e : Entry) : List Entry → List Entry
  | [] => [e]
  | a :: q =>
    if a.time_to_act ≤ e.time_to_act then a :: queueInsert e q
    else e :: a :: q

theorem queueInsert_perm (e : Entry) (q : List Entry) :
    (queueInsert e q).Perm (e :: q) := by
  induction q with
  | nil => exact List.Perm.refl _
  | cons a q ih =>
    unfold queueInsert
    split_ifs with h
    · exact (ih.cons a).trans (List.Perm.swap e a q)
    · exact List.Perm.refl _

theorem orderedInsert_of_le_all {a : Entry} {l : List Entry}
    (h : ∀ x ∈ l, entryLE a x) : List.orderedInsert entryLE a l = a :: l := by
  cases l with
  | nil => rfl
  | cons b t => simp [List.orderedInsert, h b (List.mem_cons_self b t)]

theorem queueInsert_of_lt_all {e : Entry} {l : List Entry}
    (h : ∀ x ∈ l, ¬ entryLE x e) : queueInsert e l = e :: l := by
  cases l with
  | nil => rfl
  | cons b t =>
    simp [queueInsert,
      show ¬ b.time_to_act ≤ e.time_to_act from h b (List.mem_cons_self b t)]

/-- Appending one entry to a sorted queue and re-sorting stably inserts it
after all entries with an earlier-or-equal fire time (so same-time entries
keep submission order). -/
theorem sortQueue_append_singleton {q : List Entry} (hq : q.Sorted entryLE)
    (e : Entry) : sortQueue (q ++ [e]) = queueInsert e q := by
  induction q with
  | nil => rfl
  | cons a q ih =>
    have ha : ∀ x ∈ q, entryLE a x := List.rel_of_sorted_cons hq
    have hstep : sortQueue (a :: q ++ [e]) =
        List.orderedInsert entryLE a (sortQueue (q ++ [e])) := rfl
    rw [hstep, ih hq.of_cons]
    have hcons : queueInsert e (a :: q) =
        if a.time_to_act ≤ e.time_to_act then a :: queueInsert e q
        else e :: a :: q := rfl
    rw [hcons]
    split_ifs with hae
    · apply orderedInsert_of_le_all
      intro x hx
      rcases List.mem_cons.mp ((queueInsert_perm e q).mem_iff.mp hx) with rfl | hx
      · exact hae
      · exact ha x hx
    · have he : ∀ x ∈ q, ¬ entryLE x e := fun x hx hxe =>
        hae (Nat.le_trans (ha x hx) hxe)
      rw [queueInsert_of_lt_all he]
      show List.orderedInsert entryLE a (e :: q) = e :: a :: q
      have : ¬ entryLE a e := hae
      simp only [List.orderedInsert, if_neg this]
      rw [orderedInsert_of_le_all ha]

/-- One `queue_action` call of a scenario: submission time `t` (the value
of `time.time()` during the call), the action dict, and the submitting
combatant. -/
structure Submission where
  t : Nat
  action_dict : ActionDict
  combatant : Combatant
deriving DecidableEq, Repr

/-- The queue entry a submission produces: fire time is submission time
plus the dict's delay. -/
def mkEntry (s : Submission) : Entry :=
  ⟨s.combatant, s.action_dict, s.t + dtOf s.action_dict⟩

/-- Run a sequence of `queue_action` calls against a fresh handler whose
roster is `roster`. -/
def runQueueActions (roster : List Combatant) (subs : List Submission) :
    HandlerState :=
  subs.foldl (fun st s => queue_action st s.t s.action_dict s.combatant)
    ⟨roster, []⟩

/-- A run of valid `queue_action` calls keeps the roster fixed and builds
the queue by stable ordered insertion of each submission's entry. -/
theorem run_foldl_spec (subs : List Submission) (st : HandlerState)
    (hs : st.action_queue.Sorted entryLE)
    (hv : ∀ s ∈ subs, validSubmission st.combatants s.action_dict s.combatant) :
    (subs.foldl (fun st s => queue_action st s.t s.action_dict s.combatant) st).combatants
        = st.combatants ∧
    (subs.foldl (fun st s => queue_action st s.t s.action_dict s.combatant) st).action_queue
        = subs.foldl (fun q s => queueInsert (mkEntry s) q) st.action_queue := by
  induction subs generalizing st with
  | nil => exact ⟨rfl, rfl⟩
  | cons s subs ih =>
    have hvs := hv s (List.mem_cons_self s subs)
    have hstep : queue_action st s.t s.action_dict s.combatant =
        { st with action_queue := queueInsert (mkEntry s) st.action_queue } := by
      unfold queue_action
      rw [if_neg (not_not.mpr hvs.1), if_neg (by simp [hvs.2.1]),
        if_neg (by simp [hvs.2.2])]
      rw [sortQueue_append_singleton hs]
      rfl
    have hs' : (queueInsert (mkEntry s) st.action_queue).Sorted entryLE := by
      rw [← sortQueue_append_singleton hs]
      exact sortQueue_sorted _
    have hv' : ∀ x ∈ subs, validSubmission
        ({ st with action_queue := queueInsert (mkEntry s) st.action_queue} :
          HandlerState).combatants x.action_dict x.combatant :=
      fun x hx => hv x (List.mem_cons_of_mem s hx)
    have := ih ({ st with action_queue := queueInsert (mkEntry s) st.action_queue})
      hs' hv'
    simpa [List.foldl_cons, hstep] using this

/-- Pair a list's elements with their positions, starting at `i`. -/
def annotate : List α → Nat → List (α × Nat)
  | [], _ => []
  | a :: l, i => (a, i) :: annotate l (i + 1)

/-- Lexicographic order on (fire time, submission position): the order in
which a stable fire-time sort keeps entries. -/
def lexLE (a b : Entry × Nat) : Prop :=
  a.1.time_to_act < b.1.time_to_act ∨
    (a.1.time_to_act = b.1.time_to_act ∧ a.2 ≤ b.2)

/-- Ghost variant of `queueInsert` carrying submission positions. -/
def queueInsertA (e : Entry × Nat) : List (Entry × Nat) → List (Entry × Nat)
  | [] => [e]
  | a :: q =>
    if a.1.time_to_act ≤ e.1.time_to_act then a :: queueInsertA e q
    else e :: a :: q

theorem annotate_map_fst (l : List α) (i : Nat) :
    (annotate l i).map Prod.fst = l := by
  induction l generalizing i with
  | nil => rfl
  | cons a l ih => simp [annotate, ih]

theorem queueInsertA_map_fst (e : Entry × Nat) (l : List (Entry × Nat)) :
    (queueInsertA e l).map Prod.fst = queueInsert e.1 (l.map Prod.fst) := by
  induction l with
  | nil => rfl
  | cons a l ih =>
    have h1 : queueInsertA e (a :: l) =
        if a.1.time_to_act ≤ e.1.time_to_act then a :: queueInsertA e l
        else e :: a :: l := rfl
    have h2 : queueInsert e.1 (a.1 :: l.map Prod.fst) =
        if a.1.time_to_act ≤ e.1.time_to_act
        then a.1 :: queueInsert e.1 (l.map Prod.fst)
        else e.1 :: a.1 :: l.map Prod.fst := rfl
    rw [List.map_cons, h1, h2]
    split_ifs with h
    · simp [ih]
    · simp

theorem queueInsertA_perm (e : Entry × Nat) (l : List (Entry × Nat)) :
    (queueInsertA e l).Perm (e :: l) := by
  induction l with
  | nil => exact List.Perm.refl _
  | cons a l ih =>
    unfold queueInsertA
    split_ifs with h
    · exact (ih.cons a).trans (List.Perm.swap e a l)
    · exact List.Perm.refl _

theorem queueInsertA_lex {e : Entry × Nat} {l : List (Entry × Nat)}
    (hl : l.Pairwise lexLE) (hi : ∀ x ∈ l, x.2 < e.2) :
    (queueInsertA e l).Pairwise lexLE := by
  induction l with
  | nil => simp [queueInsertA, lexLE]
  | cons a l ih =>
    rcases List.pairwise_cons.mp hl with ⟨ha, hl2⟩
    have hcons : queueInsertA e (a :: l) =
        if a.1.time_to_act ≤ e.1.time_to_act then a :: queueInsertA e l
        else e :: a :: l := rfl
    rw [hcons]
    split_ifs with hae
    · refine List.pairwise_cons.mpr
        ⟨?_, ih hl2 (fun x hx => hi x (List.mem_cons_of_mem a hx))⟩
      intro x hx
      rcases List.mem_cons.mp ((queueInsertA_perm e l).mem_iff.mp hx) with rfl | hx
      · rcases Nat.lt_or_ge a.1.time_to_act x.1.time_to_act with h | h
        · exact Or.inl h
        · exact Or.inr ⟨Nat.le_antisymm hae h,
            Nat.le_of_lt (hi a (List.mem_cons_self a l))⟩
      · exact ha x hx
    · have hea : e.1.time_to_act < a.1.time_to_act := Nat.lt_of_not_le hae
      refine List.pairwise_cons.mpr ⟨?_, hl⟩
      intro x hx
      rcases List.mem_cons.mp hx with rfl | hx
      · exact Or.inl hea
      · rcases ha x hx with h | ⟨h, _⟩
        · exact Or.inl (Nat.lt_trans hea h)
        · exact Or.inl (h ▸ hea)

theorem ghost_fold_map_fst (l : List (Entry × Nat)) (acc : List (Entry × Nat)) :
    (l.foldl (fun acc e => queueInsertA e acc) acc).map Prod.fst =
      (l.map Prod.fst).foldl (fun q x => queueInsert x q) (acc.map Prod.fst) := by
  induction l generalizing acc with
  | nil => rfl
  | cons e l ih =>
    rw [List.foldl_cons, List.map_cons, List.foldl_cons, ih,
      queueInsertA_map_fst]

theorem ghost_fold_perm (l : List (Entry × Nat)) (acc : List (Entry × Nat)) :
    (l.foldl (fun acc e => queueInsertA e acc) acc).Perm (l ++ acc) := by
  induction l generalizing acc with
  | nil => exact List.Perm.refl _
  | cons e l ih =>
    rw [List.foldl_cons]
    exact ((ih _).trans
      ((queueInsertA_perm e acc).append_left l)).trans List.perm_middle

theorem ghost_fold_lex (entries : List Entry) (i : Nat)
    (acc : List (Entry × Nat)) (hacc : acc.Pairwise lexLE)
    (hidx : ∀ x ∈ acc, x.2 < i) :
    ((annotate entries i).foldl (fun acc e => queueInsertA e acc) acc).Pairwise
      lexLE := by
  induction entries generalizing i acc with
  | nil => exact hacc
  | cons a l ih =>
    refine ih (i + 1) (queueInsertA (a, i) acc) (queueInsertA_lex hacc hidx) ?_
    intro x hx
    rcases List.mem_cons.mp ((queueInsertA_perm (a, i) acc).mem_iff.mp hx) with
      rfl | hx
    · exact Nat.lt_succ_self i
    · exact Nat.lt_succ_of_lt (hidx x hx)

/-- On a queue sorted by fire time, the drain loop of `process_queue`
pops exactly the due entries (in queue order) and leaves exactly the
not-yet-due entries. -/
theorem pop_due_sorted (now : Nat) (q : List Entry)
    (h : q.Sorted entryLE) :
    pop_due now q = (q.filter (fun e => decide (e.time_to_act ≤ now)),
                     q.filter (fun e => !decide (e.time_to_act ≤ now))) := by
  induction q with
  | nil => rfl
  | cons e rest ih =>
    rcases List.pairwise_cons.mp h with ⟨he, hrest⟩
    unfold pop_due
    split_ifs with hd
    · rw [ih hrest]
      simp [hd]
    · have hall : ∀ x ∈ rest, ¬ x.time_to_act ≤ now := fun x hx hxle =>
        hd (Nat.le_trans (he x hx) hxle)
      have h1 : List.filter (fun e => decide (e.time_to_act ≤ now)) (e :: rest)
          = [] := by
        rw [List.filter_eq_nil_iff]
        intro x hx
        rcases List.mem_cons.mp hx with rfl | hx
        · simpa using hd
        · simpa using hall x hx
      have h2 : List.filter (fun e => !decide (e.time_to_act ≤ now)) (e :: rest)
          = e :: rest := by
        rw [List.filter_eq_self]
        intro x hx
        rcases List.mem_cons.mp hx with rfl | hx
        · simpa using hd
        · simpa using hall x hx
      rw [h1, h2]

/-- C3: for any sequence of valid `queue_action` calls with arbitrary
submission times and delays, the resulting queue is a permutation of the
submitted entries sorted by fire time (submission time + delay), with ties
broken by submission order (witnessed by an index-annotated copy `aq` of
the queue that is sorted lexicographically by fire time then submission
position), and draining it at time `now` pops exactly the entries whose
fire time is at most `now`, in queue order, leaving exactly the rest. -/
theorem queue_ordering_invariant (roster : List Combatant)
    (subs : List Submission) (now : Nat)
    (hv : ∀ s ∈ subs, validSubmission roster s.action_dict s.combatant) :
    (pop_due now (runQueueActions roster subs).action_queue).1 =
      (runQueueActions roster subs).action_queue.filter
        (fun e => decide (e.time_to_act ≤ now)) ∧
    (pop_due now (runQueueActions roster subs).action_queue).2 =
      (runQueueActions roster subs).action_queue.filter
        (fun e => !decide (e.time_to_act ≤ now)) ∧
    (runQueueActions roster subs).action_queue.Perm (subs.map mkEntry) ∧
    (runQueueActions roster subs).action_queue.Sorted entryLE ∧
    ∃ aq : List (Entry × Nat),
      aq.map Prod.fst = (runQueueActions roster subs).action_queue ∧
      aq.Perm (annotate (subs.map mkEntry) 0) ∧
      aq.Pairwise lexLE := by
  obtain ⟨hcomb, hque⟩ := run_foldl_spec subs ⟨roster, []⟩ (by simp) hv
  set aq := (annotate (subs.map mkEntry) 0).foldl
    (fun acc e => queueInsertA e acc) ([] : List (Entry × Nat)) with haq
  have hfst : aq.map Prod.fst = (runQueueActions roster subs).action_queue := by
    rw [haq, ghost_fold_map_fst, annotate_map_fst]
    show (subs.map mkEntry).foldl (fun q x => queueInsert x q) [] = _
    rw [List.foldl_map]
    unfold runQueueActions
    rw [hque]
  have hperm_ann : aq.Perm (annotate (subs.map mkEntry) 0) := by
    rw [haq]
    simpa using ghost_fold_perm (annotate (subs.map mkEntry) 0) []
  have hlex : aq.Pairwise lexLE := by
    rw [haq]
    exact ghost_fold_lex (subs.map mkEntry) 0 [] (by simp) (by simp)
  have hqperm : (runQueueActions roster subs).action_queue.Perm
      (subs.map mkEntry) := by
    rw [← hfst]
    have h := hperm_ann.map Prod.fst
    rwa [annotate_map_fst] at h
  have hsorted : (runQueueActions roster subs).action_queue.Sorted entryLE := by
    rw [← hfst]
    show List.Pairwise entryLE (aq.map Prod.fst)
    refine List.pairwise_map.mpr (hlex.imp ?_)
    intro a b hab
    rcases hab with h | ⟨h, _⟩
    · exact Nat.le_of_lt h
    · exact Nat.le_of_eq h
  have hpd := pop_due_sorted now _ hsorted
  exact ⟨by rw [hpd], by rw [hpd], hqperm, hsorted, aq, hfst, hperm_ann, hlex⟩

/-- An attack dict with delay `n`, as submitted by the combat commands. -/
def atkDict (n : Nat) : ActionDict :=
  [("key", .pStr "attack"), ("target", .pObj 3), ("dt", .pNat n)]

/-- Three same-instant submissions with delays 3, 1, 2 (the ordering test
of the specification). -/
def subs0 : List Submission :=
  [⟨0, atkDict 3, cA⟩, ⟨0, atkDict 1, cA⟩, ⟨0, atkDict 2, cA⟩]

/-- Witness for `queue_ordering_invariant`: the delay 3/1/2 burst drained
at time 2. -/
theorem queue_ordering_invariant_witness :
    (∀ s ∈ subs0, validSubmission [cA] s.action_dict s.combatant) ∧
    ((pop_due 2 (runQueueActions [cA] subs0).action_queue).1 =
      (runQueueActions [cA] subs0).action_queue.filter
        (fun e => decide (e.time_to_act ≤ 2)) ∧
    (pop_due 2 (runQueueActions [cA] subs0).action_queue).2 =
      (runQueueActions [cA] subs0).action_queue.filter
        (fun e => !decide (e.time_to_act ≤ 2)) ∧
    (runQueueActions [cA] subs0).action_queue.Perm (subs0.map mkEntry) ∧
    (runQueueActions [cA] subs0).action_queue.Sorted entryLE ∧
    ∃ aq : List (Entry × Nat),
      aq.map Prod.fst = (runQueueActions [cA] subs0).action_queue ∧
      aq.Perm (annotate (subs0.map mkEntry) 0) ∧
      aq.Pairwise lexLE) :=
  ⟨by decide, queue_ordering_invariant [cA] subs0 2 (by decide)⟩

/-- Sanity evaluation: the burst with delays 3, 1, 2 executes in delay
order 1, 2, 3 — the popped prefix holds fire times 1 then 2, the remaining
queue the fire-time-3 entry. -/
theorem queue_ordering_eval :
    (pop_due 2 (runQueueActions [cA] subs0).action_queue).1 =
      [⟨cA, atkDict 1, 1⟩, ⟨cA, atkDict 2, 2⟩] ∧
    (pop_due 2 (runQueueActions [cA] subs0).action_queue).2 =
      [⟨cA, atkDict 3, 3⟩] := by
  decide

/-- C4 counterexample: a due action whose combatant `cA` has been removed
from the roster is not dropped by the tick — `execute_next_action` has no
roster check, so the action still executes (`ran = true`); only the
re-queue is rejected, leaving the state unchanged. -/
theorem removed_combatant_action_still_executes :
    (¬ cA ∈ (⟨[cN], []⟩ : HandlerState).combatants) ∧
    (execute_next_action ⟨[cN], []⟩ 10 true attack_repeat_true cA).ran = true ∧
    (execute_next_action ⟨[cN], []⟩ 10 true attack_repeat_true cA).st =
      ⟨[cN], []⟩ := by
  decide

/-- C4 amended: for a combatant no longer in the roster, the tick still
reaches `execute()` whenever the action key is known (no drop, no error
report), and the re-queue block leaves the handler state unchanged because
`queue_action` rejects non-roster combatants — so the action is consumed
exactly once, producing no successor entry. -/
theorem removed_combatant_executes_no_requeue (st : HandlerState) (now : Nat)
    (can_use : Bool) (d : ActionDict) (c : Combatant)
    (h : ¬ c ∈ st.combatants) :
    (execute_next_action st now can_use d c).st = st ∧
    (execute_next_action st now can_use d c).ran =
      (isActionClassKey (dget d "key") && can_use) := by
  have hq : ∀ d2, queue_action st now d2 c = st := fun d2 => by
    unfold queue_action
    rw [if_pos h]
  constructor
  · show (if truthy (dgetD d "repeat" (.pBool true)) then
        queue_action st now d c
      else if truthy (dgetD d "repeat" (.pBool false)) then
        queue_action st now fallback_action_dict c
      else st) = st
    split_ifs <;> simp [hq]
  · rfl

/-- Witness for `removed_combatant_executes_no_requeue`: `cA` is not in
the roster, yet its attack runs and the state is untouched. -/
theorem removed_combatant_executes_no_requeue_witness :
    (¬ cA ∈ (⟨[cN], []⟩ : HandlerState).combatants) ∧
    ((execute_next_action ⟨[cN], []⟩ 10 true attack_repeat_true cA).st =
        ⟨[cN], []⟩ ∧
      (execute_next_action ⟨[cN], []⟩ 10 true attack_repeat_true cA).ran =
        (isActionClassKey (dget attack_repeat_true "key") && true)) :=
  ⟨by decide,
   removed_combatant_executes_no_requeue ⟨[cN], []⟩ 10 true attack_repeat_true
     cA (by decide)⟩

/-- The dict queued by `CmdHold` (no `repeat` key at all). -/
def holdDict : ActionDict := [("key", .pStr "hold")]

/-- C8 counterexample: an action whose `can_use()` is false is skipped
with the cannot-act message, but the queue is still mutated and the action
is retried automatically — `holdDict` carries no `repeat` flag, yet the
same payload is re-queued, because the repeat block runs regardless of
`can_use` and `repeat` defaults to `True`. -/
theorem cannot_act_still_requeues :
    dget holdDict "repeat" = none ∧
    (execute_next_action stateAN 5 false holdDict cA).ran = false ∧
    (execute_next_action stateAN 5 false holdDict cA).cannot_msg = true ∧
    (execute_next_action stateAN 5 false holdDict cA).st.action_queue =
      [⟨cA, holdDict, 6⟩] := by
  decide

/-- C8 amended: a `can_use() = false` action is skipped for the tick
(`execute()` not reached) with a user-visible cannot-act message, but the
re-queue logic still runs: the same payload is re-queued whenever its
`repeat` flag is true or missing (the default is `True`), and nothing is
re-queued only when `repeat` is explicitly false. -/
theorem cannot_act_skips_but_requeues (st : HandlerState) (now : Nat)
    (d : ActionDict) (c : Combatant)
    (hk : isActionClassKey (dget d "key") = true) :
    (execute_next_action st now false d c).ran = false ∧
    (execute_next_action st now false d c).cannot_msg = true ∧
    ((dget d "repeat" = none ∨ dget d "repeat" = some (.pBool true)) →
      (execute_next_action st now false d c).st = queue_action st now d c) ∧
    (dget d "repeat" = some (.pBool false) →
      (execute_next_action st now false d c).st = st) := by
  refine ⟨?_, ?_, ?_, ?_⟩
  · show (isActionClassKey (dget d "key") && false) = false
    simp
  · show (isActionClassKey (dget d "key") && !false) = true
    simp [hk]
  · intro hr
    show (if truthy (dgetD d "repeat" (.pBool true)) then
        queue_action st now d c
      else if truthy (dgetD d "repeat" (.pBool false)) then
        queue_action st now fallback_action_dict c
      else st) = queue_action st now d c
    rcases hr with hr | hr <;> simp only [dgetD, hr] <;> rfl
  · intro hr
    show (if truthy (dgetD d "repeat" (.pBool true)) then
        queue_action st now d c
      else if truthy (dgetD d "repeat" (.pBool false)) then
        queue_action st now fallback_action_dict c
      else st) = st
    simp only [dgetD, hr]
    rfl

/-- Witness for `cannot_act_skips_but_requeues`: the repeat-less hold dict
is re-queued after a failed `can_use`, the explicit `repeat=False` attack
is not. -/
theorem cannot_act_skips_but_requeues_witness :
    isActionClassKey (dget holdDict "key") = true ∧
    (execute_next_action stateAN 5 false holdDict cA).st =
      queue_action stateAN 5 holdDict cA ∧
    (execute_next_action stateAN 5 false attack_repeat_false cA).st =
      stateAN :=
  ⟨by decide,
   (cannot_act_skips_but_requeues stateAN 5 holdDict cA (by decide)).2.2.1
     (Or.inl (by decide)),
   (cannot_act_skips_but_requeues stateAN 5 attack_repeat_false cA
     (by decide)).2.2.2 (by decide)⟩

/-- The back-reference deletion loop of `stop_combat` succeeds and clears
the whole reference table when roster ids are distinct, every roster
member holds a back-reference, and only roster members do. -/
theorem delBackrefs_complete (cs : List Combatant) (br : List Nat)
    (hnd : (cs.map Combatant.id).Nodup) (hbrnd : br.Nodup)
    (h1 : ∀ c ∈ cs, c.id ∈ br) (h2 : ∀ i ∈ br, i ∈ cs.map Combatant.id) :
    delBackrefs cs br = .ok [] := by
  induction cs generalizing br with
  | nil =>
    have hbr : br = [] :=
      List.eq_nil_iff_forall_not_mem.mpr (fun i hi => by simpa using h2 i hi)
    rw [hbr]
    rfl
  | cons c cs ih =>
    have hin : c.id ∈ br := h1 c (List.mem_cons_self c cs)
    have hnd2 : c.id ∉ cs.map Combatant.id ∧ (cs.map Combatant.id).Nodup := by
      rw [List.map_cons, List.nodup_cons] at hnd
      exact hnd
    unfold delBackrefs
    rw [if_pos hin]
    apply ih
    · exact hnd2.2
    · exact hbrnd.erase _
    · intro x hx
      have hne : x.id ≠ c.id := fun he =>
        hnd2.1 (he ▸ List.mem_map_of_mem Combatant.id hx)
      exact (List.mem_erase_of_ne hne).mpr (h1 x (List.mem_cons_of_mem c hx))
    · intro i hi
      rcases List.mem_cons.mp (h2 i (List.mem_of_mem_erase hi)) with he | hm
      · exact absurd ((List.Nodup.mem_erase_iff hbrnd).mp hi).1 (by simp [he])
      · exact hm

/-- C10: under the invariant `add_combatant` maintains (distinct roster
ids, every roster member — and only roster members — holding the
back-reference), the first `stop_combat` succeeds and leaves an empty
roster, an empty queue, no back-references and a deregistered handler;
calling `stop_combat` a second time on that state raises nothing and
returns the same cleaned state. -/
theorem stop_combat_idempotent (st : ArenaState)
    (hnd : (st.combatants.map Combatant.id).Nodup)
    (hbrnd : st.backref.Nodup)
    (h1 : ∀ c ∈ st.combatants, c.id ∈ st.backref)
    (h2 : ∀ i ∈ st.backref, i ∈ st.combatants.map Combatant.id) :
    stop_combat st = .ok ⟨[], [], [], false⟩ ∧
    stop_combat ⟨[], [], [], false⟩ = .ok ⟨[], [], [], false⟩ := by
  constructor
  · unfold stop_combat
    rw [delBackrefs_complete st.combatants st.backref hnd hbrnd h1 h2]
    rfl
  · rfl

/-- Witness for `stop_combat_idempotent`: a live arena with two combatants
and one pending action is cleaned, and a second stop is a no-op without
error. -/
theorem stop_combat_idempotent_witness :
    stop_combat ⟨[cA, cN], [⟨cA, attack_repeat_true, 3⟩], [1, 3], true⟩ =
      .ok ⟨[], [], [], false⟩ ∧
    stop_combat ⟨[], [], [], false⟩ = .ok ⟨[], [], [], false⟩ :=
  stop_combat_idempotent ⟨[cA, cN], [⟨cA, attack_repeat_true, 3⟩], [1, 3], true⟩
    (by decide) (by decide) (by decide) (by decide)
